import Mathlib

/-!
Verification of the GhostKG core against its natural-language specification.

The development shallowly embeds the core of the repository:
  * `ghost_kg/utils/time_utils.py`  — the dual-mode simulation clock;
  * `ghost_kg/memory/fsrs.py`       — the FSRS-6 spaced-repetition scheduler;
  * `ghost_kg/storage/database.py`  — the node/edge store operations;
  * `ghost_kg/core/agent.py`        — normalization, the triple gatekeeper,
    memory updates, retrievability and the context assembly;
  * `ghost_kg/memory/cache.py`      — the LRU result cache.

Calendar timestamps are modelled as integer seconds (UTC); Python floats are
modelled as real numbers (rationals where no transcendental function enters),
so the theorems speak about the exact arithmetic the code denotes.
-/

namespace GhostKG

/-- Dual-mode simulation clock (`SimulationTime` in `time_utils.py`): either an
absolute calendar timestamp (modelled as integer seconds since the epoch, UTC)
or an abstract `(day, hour)` round. Exactly one variant is populated. -/
inductive SimulationTime where
  | calendar (t : ℤ)
  | round (day : ℕ) (hour : ℕ)
deriving DecidableEq

/-- `SimulationTime.to_datetime`: the calendar value, `None` in round mode. -/
def SimulationTime.toDatetime : SimulationTime → Option ℤ
  | .calendar t => some t
  | .round _ _ => none

/-- `SimulationTime.to_round`: the `(day, hour)` pair, `None` in calendar mode. -/
def SimulationTime.toRound : SimulationTime → Option (ℕ × ℕ)
  | .calendar _ => none
  | .round d h => some (d, h)

/-- `SimulationTime.is_datetime_mode`. -/
def SimulationTime.isDatetimeMode : SimulationTime → Bool
  | .calendar _ => true
  | .round _ _ => false

/-- FSRS memory state of a node (`NodeState` dataclass in `database.py`):
stability, difficulty, optional last-review timestamp, repetition count and
the scheduler state (0 = New, 1 = Learning, 2 = Review). -/
structure NodeState where
  stability : ℝ
  difficulty : ℝ
  lastReview : Option ℤ
  reps : ℕ
  state : ℕ

/-- The default 21-parameter FSRS-6 vector `self.p` set in `FSRS.__init__`. -/
noncomputable def p : ℕ → ℝ
  | 0 => 0.212
  | 1 => 1.2931
  | 2 => 2.3065
  | 3 => 8.2956
  | 4 => 6.4133
  | 5 => 0.8334
  | 6 => 3.0194
  | 7 => 0.001
  | 8 => 1.8722
  | 9 => 0.1666
  | 10 => 0.796
  | 11 => 1.4835
  | 12 => 0.0614
  | 13 => 0.2629
  | 14 => 1.6483
  | 15 => 0.6014
  | 16 => 1.8729
  | 17 => 0.5425
  | 18 => 0.0912
  | 19 => 0.0658
  | 20 => 0.1542
  | _ => 0

/-- `FSRS._calculate_initial_difficulty`: `D_0(G) = w4 - e^(w5*(G-1)) + 1`,
clamped into `[1, 10]` by `min(max(d, 1), 10)`. -/
noncomputable def calcInitialDifficulty (rating : ℕ) : ℝ :=
  min (max (p 4 - Real.exp (p 5 * ((rating : ℝ) - 1)) + 1) 1) 10

/-- `FSRS.calculate_next`: one review step of the FSRS-6 scheduler. A New card
(state 0) gets `stability = w[rating-1]`, the initial difficulty, one rep and
state Learning. An existing card first derives the elapsed days from the
last review (0 when the clock is in round mode or no calendar value exists,
negative values clamped to 0), then the FSRS-6 retrievability, the damped and
mean-reverted difficulty, and the rating-dependent next stability (post-lapse
for Again; same-day when less than one day elapsed; the regular formula with
hard penalty and easy bonus otherwise), floored at 0.1. -/
noncomputable def calculateNext (cur : NodeState) (rating : ℕ)
    (now : SimulationTime) : NodeState :=
  let nowDt := now.toDatetime
  if cur.state = 0 then
    ⟨p (rating - 1), calcInitialDifficulty rating, nowDt, 1, 1⟩
  else
    let s := cur.stability
    let d := cur.difficulty
    let elapsedDays : ℝ :=
      match cur.lastReview, nowDt with
      | some lr, some t => max ((((t - lr : ℤ) : ℝ)) / 86400) 0
      | _, _ => 0
    let retrievability : ℝ :=
      match cur.lastReview with
      | some _ =>
        let factor := (0.9 : ℝ) ^ (-(1 : ℝ) / p 20) - 1
        (1 + factor * elapsedDays / s) ^ (-(p 20))
      | none => 1
    let d04 := calcInitialDifficulty 4
    let deltaD := -(p 6) * ((rating : ℝ) - 3)
    let dPrime := d + deltaD * (10 - d) / 9
    let nextD := min (max (p 7 * d04 + (1 - p 7) * dPrime) 1) 10
    if rating = 1 then
      let nextS := p 11 * nextD ^ (-(p 12)) * ((s + 1) ^ (p 13) - 1) *
        Real.exp ((1 - retrievability) * p 14)
      ⟨max nextS 0.1, nextD, nowDt, cur.reps + 1, 1⟩
    else
      let nextS :=
        if elapsedDays < 1 then
          s * Real.exp (p 17 * ((rating : ℝ) - 3 + p 18)) * s ^ (-(p 19))
        else
          s * (1 + Real.exp (p 8) * (11 - nextD) * s ^ (-(p 9)) *
            (Real.exp ((1 - retrievability) * p 10) - 1) *
            (if rating = 2 then p 15 else 1) * (if rating = 4 then p 16 else 1))
      ⟨max nextS 0.1, nextD, nowDt, cur.reps + 1, 2⟩

/-- Persisted node row (`Node` model in `models.py`): composite key
`(owner_id, id)`, FSRS fields (defaulting to 0 when created without a state),
creation timestamp and optional round-mode day/hour. -/
structure NodeRec where
  ownerId : String
  id : String
  stability : ℝ
  difficulty : ℝ
  lastReview : Option ℤ
  reps : ℕ
  state : ℕ
  createdAt : Option ℤ
  simDay : Option ℕ
  simHour : Option ℕ

/-- Persisted edge row (`Edge` model in `models.py`): composite key
`(owner_id, source, target, relation)` plus sentiment, creation timestamp and
optional round-mode day/hour. Sentiment never passes through a transcendental
function, so it is modelled as an exact rational. -/
structure Edge where
  ownerId : String
  source : String
  target : String
  relation : String
  sentiment : ℚ
  createdAt : Option ℤ
  simDay : Option ℕ
  simHour : Option ℕ
deriving DecidableEq

/-- The knowledge store (`KnowledgeDB`): the node and edge tables, each kept
in insertion order. -/
structure KnowledgeDB where
  nodes : List NodeRec
  edges : List Edge

/-- `ValidationError` (`utils/exceptions.py`). -/
structure ValidationError where
  msg : String

/-- The node lookup used by `upsert_node` and `KnowledgeDB.get_node`:
first row whose composite key `(owner_id, id)` matches. -/
def findNode (db : KnowledgeDB) (ownerId nodeId : String) : Option NodeRec :=
  db.nodes.find? (fun n => n.ownerId == ownerId && n.id == nodeId)

/-- The edge lookup used by `add_relation`: first row whose composite key
`(owner_id, source, target, relation)` matches. -/
def findEdge (db : KnowledgeDB) (ownerId source target relation : String) :
    Option Edge :=
  db.edges.find? (fun e => e.ownerId == ownerId && e.source == source &&
    e.target == target && e.relation == relation)

/-- The `_upsert` action inside `KnowledgeDB.upsert_node`: update the FSRS
fields (and round-mode stamps) of an existing row when a state is supplied,
leave an existing row untouched otherwise, and create a fresh row (FSRS
fields defaulting to 0) when the key is new. -/
def upsertNodeAct (db : KnowledgeDB) (ownerId nodeId : String)
    (fsrsState : Option NodeState) (timestamp : SimulationTime) : KnowledgeDB :=
  let ts := timestamp.toDatetime
  let sd := (timestamp.toRound).map Prod.fst
  let sh := (timestamp.toRound).map Prod.snd
  match findNode db ownerId nodeId with
  | some _ =>
    match fsrsState with
    | some fs =>
      { db with nodes := db.nodes.map (fun n =>
          if n.ownerId == ownerId && n.id == nodeId then
            { n with
              stability := fs.stability
              difficulty := fs.difficulty
              lastReview := fs.lastReview
              reps := fs.reps
              state := fs.state
              simDay := sd
              simHour := sh }
          else n) }
    | none => db
  | none =>
    let newNode : NodeRec :=
      match fsrsState with
      | some fs =>
        ⟨ownerId, nodeId, fs.stability, fs.difficulty, fs.lastReview,
          fs.reps, fs.state, ts, sd, sh⟩
      | none => ⟨ownerId, nodeId, 0, 0, none, 0, 0, ts, sd, sh⟩
    { db with nodes := db.nodes ++ [newNode] }

/-- `KnowledgeDB.upsert_node`: rejects an empty owner or node id with a
`ValidationError`, otherwise performs the upsert action. -/
def upsertNode (db : KnowledgeDB) (ownerId nodeId : String)
    (fsrsState : Option NodeState) (timestamp : SimulationTime) :
    Except ValidationError KnowledgeDB :=
  if ownerId = "" ∨ nodeId = "" then
    .error ⟨"owner_id and node_id are required"⟩
  else
    .ok (upsertNodeAct db ownerId nodeId fsrsState timestamp)

/-- `KnowledgeDB.add_relation`: rejects empty identifiers, replaces a missing
sentiment by the default 0.0, rejects a sentiment outside `[-1, 1]` with a
`ValidationError` before touching the store, then ensures both endpoint nodes
exist and upserts the edge (overwriting sentiment and timestamps on an
existing key, appending a new row otherwise). -/
def addRelation (db : KnowledgeDB) (ownerId source relation target : String)
    (sentiment : Option ℚ) (timestamp : SimulationTime) :
    Except ValidationError KnowledgeDB :=
  if ownerId = "" ∨ source = "" ∨ relation = "" ∨ target = "" then
    .error ⟨"owner_id, source, relation, and target are required"⟩
  else
    let s := sentiment.getD 0
    if -1 ≤ s ∧ s ≤ 1 then
      let ts := timestamp.toDatetime
      let sd := (timestamp.toRound).map Prod.fst
      let sh := (timestamp.toRound).map Prod.snd
      let db1 := upsertNodeAct db ownerId source none timestamp
      let db2 := upsertNodeAct db1 ownerId target none timestamp
      let edges2 :=
        match findEdge db2 ownerId source target relation with
        | some _ => db2.edges.map (fun e =>
            if e.ownerId == ownerId && e.source == source &&
                e.target == target && e.relation == relation then
              { e with
                sentiment := s
                createdAt := ts
                simDay := sd
                simHour := sh }
            else e)
        | none => db2.edges ++ [⟨ownerId, source, target, relation, s, ts, sd, sh⟩]
      .ok { db2 with edges := edges2 }
    else
      .error ⟨"sentiment must be between -1.0 and 1.0"⟩

/-- The store a caller observes after `add_relation`: the new store on
success, the unchanged one when the call raised. -/
def addRelationRun (db : KnowledgeDB) (ownerId source relation target : String)
    (sentiment : Option ℚ) (timestamp : SimulationTime) : KnowledgeDB :=
  match addRelation db ownerId source relation target sentiment timestamp with
  | .ok db2 => db2
  | .error _ => db

/-- Python's `str.isspace`-class characters relevant to `strip()` and the
regex class `\s`: space, tab, newline, carriage return, vertical tab, form
feed. -/
def pyIsSpace (c : Char) : Bool :=
  c == ' ' || c == '\t' || c == '\n' || c == '\r' || c.toNat == 11 || c.toNat == 12

/-- Python's `str.lower` on the ASCII range: map `A`–`Z` to `a`–`z`. -/
def pyLower (c : Char) : Char :=
  if 65 ≤ c.toNat && c.toNat ≤ 90 then Char.ofNat (c.toNat + 32) else c

/-- Python's `str.strip()`: drop leading and trailing whitespace. -/
def stripChars (l : List Char) : List Char :=
  ((l.dropWhile pyIsSpace).reverse.dropWhile pyIsSpace).reverse

/-- The lowercased character sequence of a string. -/
def lowerChars (s : String) : List Char := s.toList.map pyLower

/-- The `LIKE '%topic%'` match used by the retrieval queries: substring
containment, case-insensitive as in SQLite's default ASCII collation. -/
def likeMatch (topic s : String) : Bool :=
  decide (lowerChars topic <:+: lowerChars s)

/-- `KnowledgeDB.get_world_knowledge`: the edges of the owner whose source is
not the literal `"I"` and whose target matches the topic substring, truncated
to `limit` rows (the query carries no ordering clause). -/
def getWorldKnowledge (db : KnowledgeDB) (ownerId topic : String)
    (limit : ℕ) : List Edge :=
  (db.edges.filter (fun e => e.ownerId == ownerId && e.source != "I" &&
    likeMatch topic e.target)).take limit

/-- Newest-first comparison used to model `ORDER BY created_at DESC` (SQL
NULLs sort below every value, hence last in descending order). -/
def newestFirst (e1 e2 : Edge) : Prop :=
  match e1.createdAt, e2.createdAt with
  | some a, some b => b ≤ a
  | some _, none => True
  | none, some _ => False
  | none, none => True

instance : DecidableRel newestFirst := fun e1 e2 => by
  unfold newestFirst
  cases e1.createdAt <;> cases e2.createdAt <;> infer_instance

/-- `KnowledgeDB.get_agent_stance`: the owner's own edges (source `"I"` or the
owner) whose target matches the topic or whose creation time lies within the
last 60 simulated minutes, newest first, truncated to 8 rows. A comparison
against a missing timestamp is false, as for SQL NULL. -/
def getAgentStance (db : KnowledgeDB) (ownerId topic : String)
    (currentTime : SimulationTime) : List Edge :=
  let ts := currentTime.toDatetime
  let recent : Edge → Bool := fun e =>
    match ts, e.createdAt with
    | some t, some ca => decide (t - 3600 ≤ ca)
    | _, _ => false
  ((db.edges.filter (fun e => e.ownerId == ownerId &&
      (e.source == "I" || e.source == ownerId) &&
      (likeMatch topic e.target || recent e))).insertionSort
    newestFirst).take 8

/-- The character class kept by `GhostAgent._normalize`'s
`re.sub(r"[^a-z0-9\s]", "", ...)`: lowercase ASCII letters, digits, and the
whitespace class (space, tab, newline, carriage return, vertical tab, form
feed). -/
def keepChar (c : Char) : Bool :=
  (97 ≤ c.toNat && c.toNat ≤ 122) || (48 ≤ c.toNat && c.toNat ≤ 57) ||
    c == ' ' || c == '\t' || c == '\n' || c == '\r' ||
    c.toNat == 11 || c.toNat == 12

/-- `GhostAgent._normalize`: `None` for empty input; otherwise strip, lower,
drop every character outside `[a-z0-9\s]`, and map explicit self-references
(`"i"`, the agent's own lowercased name, `"me"`, `"myself"`) to the canonical
token `"I"`. Note the cleaned text may be the empty string, which is still
returned (callers test for falsiness themselves). -/
def normalize (agentName : String) (text : String) : Option String :=
  if text = "" then none
  else
    let clean := String.mk (((stripChars text.toList).map pyLower).filter keepChar)
    if clean = "i" then some "I"
    else if clean = String.mk (agentName.toList.map pyLower) then some "I"
    else if clean = "me" ∨ clean = "myself" then some "I"
    else some clean

/-- The stopword set of `GhostAgent._is_valid_triple`. -/
def stopwords : List String := ["it", "is", "the", "a", "an", "this", "that"]

/-- The banned grammatical/meta relation labels of
`GhostAgent._is_valid_triple` (the semantic gatekeeper). -/
def bannedRelations : List String :=
  ["noun", "verb", "adjective", "adverb", "preposition", "conjunction",
   "pronoun", "phrase", "clause", "sentence", "statement", "text", "topic",
   "concept", "word", "term", "rating", "evaluation", "opinion"]

/-- The banned generic node names of `GhostAgent._is_valid_triple`. -/
def bannedNodes : List String :=
  ["text", "entity", "author", "none", "unknown", "wikipedia",
   "general knowledge", "source", "target", "adjective", "noun"]

/-- `GhostAgent._is_valid_triple` applied to the normalized components
(`None` or empty components are falsy and rejected up front): rejects short
non-"I" endpoints, stopword or banned-generic endpoints, and banned
grammatical relations. -/
def isValidTriple (src rel tgt : Option String) : Bool :=
  match src, rel, tgt with
  | some s, some r, some t =>
    if s = "" ∨ r = "" ∨ t = "" then false
    else if s.length < 2 ∧ s ≠ "I" then false
    else if t.length < 2 ∧ t ≠ "I" then false
    else if s ∈ stopwords ∨ t ∈ stopwords then false
    else if s ∈ bannedNodes ∨ t ∈ bannedNodes then false
    else if r ∈ bannedRelations then false
    else true
  | _, _, _ => false

/-- The state a `GhostAgent` carries: its name, its knowledge store and its
simulation clock. -/
structure AgentState where
  name : String
  db : KnowledgeDB
  currentTime : SimulationTime

/-- The FSRS fields of a stored node row, as `update_memory` reads them. -/
def nodeStateOf (n : NodeRec) : NodeState :=
  ⟨n.stability, n.difficulty, n.lastReview, n.reps, n.state⟩

/-- The current state `update_memory` feeds to the scheduler: the stored row
when it exists and has a last review, the blank New-card state
`NodeState(0, 0, None, 0, 0)` otherwise. -/
def readMemoryState (db : KnowledgeDB) (owner name : String) : NodeState :=
  match findNode db owner name with
  | some row =>
    match row.lastReview with
    | some lr => ⟨row.stability, row.difficulty, some lr, row.reps, row.state⟩
    | none => ⟨0, 0, none, 0, 0⟩
  | none => ⟨0, 0, none, 0, 0⟩

/-- `GhostAgent.update_memory`: normalize the concept name (returning silently
when it is falsy), read the current state, run the scheduler at the agent's
clock, and upsert the result. -/
noncomputable def updateMemory (st : AgentState) (conceptName : String)
    (rating : ℕ) : AgentState :=
  match normalize st.name conceptName with
  | none => st
  | some normName =>
    if normName = "" then st
    else
      let newState := calculateNext (readMemoryState st.db st.name normName)
        rating st.currentTime
      { st with
        db := upsertNodeAct st.db st.name normName (some newState) st.currentTime }

/-- `GhostAgent.learn_triplet`: default the rating to Good and the sentiment
to 0.0, normalize the three components, silently drop the triplet when the
gatekeeper rejects it, otherwise update the target's memory with the caller's
rating, update the source's memory with the fixed rating Good when the source
is not `"I"`, and persist the edge. -/
noncomputable def learnTriplet (st : AgentState) (source relation target : String)
    (rating : Option ℕ) (sentiment : Option ℚ) :
    Except ValidationError AgentState :=
  let rating := rating.getD 3
  let sentiment : ℚ := sentiment.getD 0
  let nSource := normalize st.name source
  let nTarget := normalize st.name target
  let nRelation := normalize st.name relation
  if isValidTriple nSource nRelation nTarget then
    let st1 := updateMemory st (nTarget.getD "") rating
    let st2 := if nSource ≠ some "I" then updateMemory st1 (nSource.getD "") 3
               else st1
    match addRelation st2.db st.name (nSource.getD "") (nRelation.getD "")
        (nTarget.getD "") (some sentiment) st.currentTime with
    | .ok db2 => .ok { st2 with db := db2 }
    | .error e => .error e
  else
    .ok st

/-- `GhostAgent._get_retrievability` (the legacy read-path formula): 0.0 when
there is no last review or the stability is 0; otherwise
`(1 + elapsed_days / (9 * stability))^(-1)` where `elapsed_days` is the
whole-day difference `(current - last_review).days` in calendar mode (floor
division, clamped at 0) and the conservative fallback 0 in round mode. -/
noncomputable def getRetrievability (now : SimulationTime) (stability : ℝ)
    (lastReview : Option ℤ) : ℝ :=
  match lastReview with
  | none => 0
  | some lr =>
    if stability = 0 then 0
    else
      let elapsedDays : ℤ :=
        match now with
        | .calendar t => Int.fdiv (t - lr) 86400
        | .round _ _ => 0
      let e : ℤ := max elapsedDays 0
      (1 + (e : ℝ) / (9 * stability))⁻¹

/-- The shape of `GhostAgent.get_memory_view`'s result: the deterministic
"confused" marker for an unusable topic, the deterministic "forgotten" marker
(the function stops before any edge query), or the assembled view carrying
the stance rows and the world-knowledge rows it fetched. -/
inductive MemoryView where
  | confused
  | forgotten (topic : String)
  | assembled (stanceRows worldRows : List Edge)

/-- The branch structure of `GhostAgent.get_memory_view`: normalize the topic
(confused when falsy), compute the legacy retrievability of its stored node
when one exists and return the forgotten marker when it is below 0.2, and
otherwise fetch up to 8 stance rows and up to 8 world-knowledge rows. -/
noncomputable def getMemoryViewCore (st : AgentState) (topic : String) :
    MemoryView :=
  match normalize st.name topic with
  | none => .confused
  | some nTopic =>
    if nTopic = "" then .confused
    else
      let proceed : MemoryView := .assembled
        (getAgentStance st.db st.name nTopic st.currentTime)
        (getWorldKnowledge st.db st.name nTopic 8)
      match findNode st.db st.name nTopic with
      | some row =>
        if getRetrievability st.currentTime row.stability row.lastReview < 0.2
        then .forgotten topic
        else proceed
      | none => proceed

/-- The marker strings `get_memory_view` returns on its early exits. -/
def renderMarker : MemoryView → Option String
  | .confused => some "(I am confused)"
  | .forgotten topic => some ("(I have forgotten the details about " ++ topic ++ ")")
  | .assembled _ _ => none

/-- `GhostAgent.__init__` at a given clock: the fresh agent stores one node,
`(name, "I")`, created without an FSRS state. -/
def initAgent (name : String) (now : SimulationTime) : AgentState :=
  ⟨name, upsertNodeAct ⟨[], []⟩ name "I" none now, now⟩

/-- One entry of the result cache (`cache.py`): the key (the deterministic
hash of the call arguments, modelled at key granularity), the cached value,
and the access counter stamped at the last touch. -/
structure CacheEntry where
  key : String
  value : String
  accessCount : ℕ
deriving DecidableEq

/-- `AgentCache`: bound, enabled flag, the two insertion-ordered maps (the
context map and the memory-view map), and the monotonically increasing
access counter shared by both. -/
structure AgentCache where
  maxSize : ℕ
  enabled : Bool
  contextCache : List CacheEntry
  memoryCache : List CacheEntry
  accessCounter : ℕ
deriving DecidableEq

/-- A fresh enabled cache of the given bound (`AgentCache.__init__`). -/
def emptyCache (n : ℕ) : AgentCache := ⟨n, true, [], [], 0⟩

/-- The key Python's `min(cache.items(), key=lambda x: x[1][1])` selects: the
first entry, in insertion order, whose access counter is minimal. -/
def lruKey : List CacheEntry → Option String
  | [] => none
  | e :: es => some ((es.foldl
      (fun b x => if x.accessCount < b.accessCount then x else b) e).key)

/-- `AgentCache._evict_lru` on the context map: when the map has reached the
bound, delete the entry `lruKey` names. (Python would raise on an empty map
with `max_size = 0`; that corner is unreachable from the claims, which
require `max_size ≥ 1`.) -/
def evictLru (c : AgentCache) : AgentCache :=
  if c.maxSize ≤ c.contextCache.length then
    match lruKey c.contextCache with
    | some k =>
      { c with contextCache := c.contextCache.eraseP (fun e => e.key == k) }
    | none => c
  else c

/-- `AgentCache.put_context` at key granularity: no-op when disabled; evict
the least-recently-accessed entry only when the key is new and the map is
full; then stamp the incremented counter and insert (a new key is appended,
an existing key is overwritten in place, as in an insertion-ordered dict). -/
def putContextKey (c : AgentCache) (key value : String) : AgentCache :=
  if c.enabled then
    let c1 := if c.contextCache.all (fun e => e.key != key) &&
                 decide (c.maxSize ≤ c.contextCache.length)
              then evictLru c else c
    let counter := c1.accessCounter + 1
    let entries :=
      if c1.contextCache.any (fun e => e.key == key) then
        c1.contextCache.map (fun e =>
          if e.key == key then ⟨e.key, value, counter⟩ else e)
      else c1.contextCache ++ [⟨key, value, counter⟩]
    { c1 with contextCache := entries, accessCounter := counter }
  else c

/-- `AgentCache.get_context` at key granularity: `None` when disabled or the
key is absent; otherwise return the cached value and restamp the entry with
the incremented counter. -/
def getContextKey (c : AgentCache) (key : String) : Option String × AgentCache :=
  if c.enabled then
    match c.contextCache.find? (fun e => e.key == key) with
    | some e =>
      let counter := c.accessCounter + 1
      (some e.value,
        { c with
          accessCounter := counter
          contextCache := c.contextCache.map (fun x =>
            if x.key == key then ⟨x.key, x.value, counter⟩ else x) })
    | none => (none, c)
  else (none, c)

/-- Concrete store for the world-knowledge query: one edge owned by
`"alice"` whose source is the owner herself and whose target matches the
topic `"ubi"`. -/
def c4db : KnowledgeDB :=
  ⟨[], [⟨"alice", "alice", "ubi", "likes", 0, none, none, none⟩]⟩

/-- Strict decrease of the read-path retrievability in clock time, as claim
C5 states it: for fixed positive stability and fixed last review, any later
clock yields strictly smaller retrievability. -/
def retrStrictlyDecreasing (S : ℝ) (lr : ℤ) : Prop :=
  ∀ t1 t2 : ℤ, lr ≤ t1 → t1 < t2 →
    getRetrievability (.calendar t2) S (some lr) <
      getRetrievability (.calendar t1) S (some lr)

/-- The cache entries produced by inserting fresh keys in order, stamping
each with the successive access-counter values after a given start. -/
def stamped (v : String → String) : ℕ → List String → List CacheEntry
  | _, [] => []
  | c, k :: ks => ⟨k, v k, c + 1⟩ :: stamped v (c + 1) ks

/-- Concrete agent for the forgotten-marker scenario: owner `"alice"`, one
stored node `"ubi"` with stability 5 last reviewed at time 0, and the clock
200 days later. -/
def c3st : AgentState :=
  ⟨"alice", ⟨[⟨"alice", "ubi", 5, 5, some 0, 1, 1, some 0, none, none⟩], []⟩,
    .calendar (200 * 86400)⟩

/-- C1: for every rating `r ∈ {1,2,3,4}`, `calculate_next` on a New card
(state 0) returns stability `w[r-1]` exactly (so `r = 3` gives stability
`2.3065` under the default parameter vector), difficulty
`clamp(w4 - exp(w5*(r-1)) + 1, 1, 10)`, and `reps = 1`. -/
theorem claim_C1 (r : ℕ) (h1 : 1 ≤ r) (h4 : r ≤ 4)
    (cur : NodeState) (now : SimulationTime) (h0 : cur.state = 0) :
    (calculateNext cur r now).stability = p (r - 1) ∧
    (calculateNext cur r now).difficulty =
      min (max (p 4 - Real.exp (p 5 * ((r : ℝ) - 1)) + 1) 1) 10 ∧
    (calculateNext cur r now).reps = 1 ∧
    (calculateNext cur 3 now).stability = 2.3065 := by
  refine ⟨?_, ?_, ?_, ?_⟩ <;>
    simp [calculateNext, h0, calcInitialDifficulty, p]

/-- Witness for C1 at rating `r = 3` on a fresh New card. -/
theorem claim_C1_witness :
    (calculateNext ⟨0, 0, none, 0, 0⟩ 3 (.calendar 0)).stability = p 2 ∧
    (calculateNext ⟨0, 0, none, 0, 0⟩ 3 (.calendar 0)).difficulty =
      min (max (p 4 - Real.exp (p 5 * ((3 : ℕ) - 1 : ℝ)) + 1) 1) 10 ∧
    (calculateNext ⟨0, 0, none, 0, 0⟩ 3 (.calendar 0)).reps = 1 ∧
    (calculateNext ⟨0, 0, none, 0, 0⟩ 3 (.calendar 0)).stability = 2.3065 :=
  claim_C1 3 (by decide) (by decide) ⟨0, 0, none, 0, 0⟩ (.calendar 0) rfl

/-- Helper: a successful Good review one full day after the last review
strictly increases the stored stability, for any positive prior stability. -/
theorem calculateNext_nextDay_good (stab diff : ℝ) (hs : 0 < stab)
    (reps st : ℕ) (hst : ¬ st = 0) (T : ℤ) :
    stab < (calculateNext ⟨stab, diff, some T, reps, st⟩ 3
      (.calendar (T + 86400))).stability := by
  have helapsed : (((T + 86400 - T : ℤ) : ℝ)) / 86400 = 1 := by
    push_cast
    ring_nf
  simp only [calculateNext, SimulationTime.toDatetime, hst, if_false, ite_false,
    helapsed]
  have hm : (1 : ℝ) ⊔ 0 = 1 := max_eq_left (by norm_num)
  simp only [hm]
  norm_num
  left
  set D2 := ((p 7 * calcInitialDifficulty 4 + (1 - p 7) * diff) ⊔ 1) ⊓ 10 with hD2
  have hD2le : D2 ≤ 10 := inf_le_right
  have h11 : (0 : ℝ) < 11 - D2 := by linarith
  have hfac : (0 : ℝ) < (9 / 10 : ℝ) ^ ((-1 : ℝ) / p 20) - 1 := by
    have h1 : (1 : ℝ) < (9 / 10 : ℝ) ^ ((-1 : ℝ) / p 20) := by
      rw [Real.one_lt_rpow_iff_of_pos (by norm_num)]
      right
      exact ⟨by norm_num, by norm_num [p]⟩
    linarith
  have hbase : (1 : ℝ) < 1 + ((9 / 10 : ℝ) ^ ((-1 : ℝ) / p 20) - 1) / stab := by
    have := div_pos hfac hs
    linarith
  have hR : (1 + ((9 / 10 : ℝ) ^ ((-1 : ℝ) / p 20) - 1) / stab) ^ (-p 20) < 1 :=
    Real.rpow_lt_one_of_one_lt_of_neg hbase (by norm_num [p])
  have hexp1 : 1 < Real.exp
      ((1 - (1 + ((9 / 10 : ℝ) ^ ((-1 : ℝ) / p 20) - 1) / stab) ^ (-p 20)) * p 10) := by
    have h10 : (0 : ℝ) < p 10 := by norm_num [p]
    have hpos : 0 < (1 - (1 + ((9 / 10 : ℝ) ^ ((-1 : ℝ) / p 20) - 1) / stab) ^ (-p 20)) * p 10 :=
      mul_pos (by linarith) h10
    calc (1 : ℝ) = Real.exp 0 := (Real.exp_zero).symm
      _ < _ := Real.exp_lt_exp.mpr hpos
  have hpow : 0 < stab ^ (-p 9) := Real.rpow_pos_of_pos hs _
  have hE : 0 < Real.exp (p 8) * (11 - D2) * stab ^ (-p 9) *
      (Real.exp ((1 - (1 + ((9 / 10 : ℝ) ^ ((-1 : ℝ) / p 20) - 1) / stab) ^ (-p 20)) * p 10) - 1) :=
    mul_pos (mul_pos (mul_pos (Real.exp_pos _) h11) hpow) (by linarith)
  nlinarith [mul_pos hs hE]

/-- C2: a concept first learned as a New card with rating Good, then reviewed
again exactly one simulated day later (calendar mode) with rating Good, ends
with a stability strictly greater than the fresh single-rating stability
`w[2]` produced by the first call — decay-aware reinforcement, not a flat
overwrite. -/
theorem claim_C2 (cur : NodeState) (h0 : cur.state = 0) (T : ℤ) :
    (calculateNext cur 3 (.calendar T)).stability = p 2 ∧
    p 2 < (calculateNext (calculateNext cur 3 (.calendar T)) 3
      (.calendar (T + 86400))).stability := by
  have h1 : calculateNext cur 3 (.calendar T) =
      ⟨p 2, calcInitialDifficulty 3, some T, 1, 1⟩ := by
    simp [calculateNext, h0, SimulationTime.toDatetime]
  rw [h1]
  exact ⟨rfl, calculateNext_nextDay_good (p 2) _ (by norm_num [p]) 1 1
    (by norm_num) T⟩

/-- Witness for C2 on a fresh New card at calendar time 0. -/
theorem claim_C2_witness :
    (calculateNext ⟨0, 0, none, 0, 0⟩ 3 (.calendar 0)).stability = p 2 ∧
    p 2 < (calculateNext (calculateNext ⟨0, 0, none, 0, 0⟩ 3 (.calendar 0)) 3
      (.calendar (0 + 86400))).stability :=
  claim_C2 ⟨0, 0, none, 0, 0⟩ rfl 0

/-- C5 counterexample: the read path floors the elapsed time to whole days
(`(current - last_review).days`), so one hour and two hours after a review at
time 0 with stability 5 give the same retrievability 1.0 — the function is
not strictly decreasing in the elapsed clock time. -/
theorem claim_C5_counterexample : ¬ retrStrictlyDecreasing 5 0 := by
  intro h
  have h2 := h 3600 7200 (by norm_num) (by norm_num)
  have d1 : Int.fdiv (3600 - 0) 86400 = 0 := by decide
  have d2 : Int.fdiv (7200 - 0) 86400 = 0 := by decide
  have e1 : getRetrievability (.calendar 3600) 5 (some 0) = 1 := by
    simp only [getRetrievability, d1]
    norm_num
  have e2 : getRetrievability (.calendar 7200) 5 (some 0) = 1 := by
    simp only [getRetrievability, d2]
    norm_num
  rw [e1, e2] at h2
  exact lt_irrefl 1 h2

/-- C5 (amended): for fixed stability `S > 0` and fixed last review, the
read-path retrievability is strictly decreasing in the clamped whole-day
count the code derives from the clock, and equals 1.0 at elapsed time 0. -/
theorem claim_C5 (S : ℝ) (hS : 0 < S) (lr t1 t2 : ℤ)
    (hdays : max (Int.fdiv (t1 - lr) 86400) 0 < max (Int.fdiv (t2 - lr) 86400) 0) :
    getRetrievability (.calendar t2) S (some lr) <
      getRetrievability (.calendar t1) S (some lr) ∧
    getRetrievability (.calendar lr) S (some lr) = 1 := by
  have h9 : (0 : ℝ) < 9 * S := by linarith
  constructor
  · simp only [getRetrievability, if_neg hS.ne']
    have hc : ((max (Int.fdiv (t1 - lr) 86400) 0 : ℤ) : ℝ) <
        ((max (Int.fdiv (t2 - lr) 86400) 0 : ℤ) : ℝ) := by exact_mod_cast hdays
    have hn1 : (0 : ℝ) ≤ ((max (Int.fdiv (t1 - lr) 86400) 0 : ℤ) : ℝ) := by
      exact_mod_cast le_max_right (Int.fdiv (t1 - lr) 86400) 0
    have hb1 : (0 : ℝ) < 1 + ((max (Int.fdiv (t1 - lr) 86400) 0 : ℤ) : ℝ) / (9 * S) := by
      have := div_nonneg hn1 h9.le
      linarith
    have hlt : 1 + ((max (Int.fdiv (t1 - lr) 86400) 0 : ℤ) : ℝ) / (9 * S) <
        1 + ((max (Int.fdiv (t2 - lr) 86400) 0 : ℤ) : ℝ) / (9 * S) := by
      gcongr
    exact inv_strictAnti₀ hb1 hlt
  · simp only [getRetrievability, if_neg hS.ne']
    have d0 : Int.fdiv (lr - lr) 86400 = 0 := by
      rw [sub_self]
      decide
    rw [d0]
    norm_num

/-- Witness for C5 at stability 5, last review 0, clocks 0 and two days. -/
theorem claim_C5_witness :
    getRetrievability (.calendar 172800) 5 (some 0) <
      getRetrievability (.calendar 0) 5 (some 0) ∧
    getRetrievability (.calendar 0) 5 (some 0) = 1 :=
  claim_C5 5 (by norm_num) 0 0 172800 (by decide)

/-- C3: for a topic whose normalized form has a stored node with a calendar
last review and positive stability, `get_memory_view` returns the
deterministic forgotten marker and stops before any edge query exactly when
the legacy retrievability `(1 + elapsed_days/(9*S))⁻¹` is below 0.2; with
stability 5 and 200 elapsed days the retrievability is `9/49 ≈ 0.18 < 0.2`. -/
theorem claim_C3 (st : AgentState) (topic nTopic : String) (row : NodeRec)
    (now lr : ℤ) (hct : st.currentTime = .calendar now)
    (hn : normalize st.name topic = some nTopic) (hne : nTopic ≠ "")
    (hrow : findNode st.db st.name nTopic = some row)
    (hlr : row.lastReview = some lr) (hS : 0 < row.stability) :
    (getMemoryViewCore st topic = .forgotten topic ↔
      getRetrievability st.currentTime row.stability row.lastReview < 0.2) ∧
    getRetrievability st.currentTime row.stability row.lastReview =
      (1 + ((max (Int.fdiv (now - lr) 86400) 0 : ℤ) : ℝ) /
        (9 * row.stability))⁻¹ ∧
    renderMarker (.forgotten topic) =
      some ("(I have forgotten the details about " ++ topic ++ ")") ∧
    getRetrievability (.calendar (200 * 86400)) 5 (some 0) = 9 / 49 ∧
    ((9 : ℝ) / 49) < 0.2 := by
  have hr : getRetrievability st.currentTime row.stability row.lastReview =
      (1 + ((max (Int.fdiv (now - lr) 86400) 0 : ℤ) : ℝ) /
        (9 * row.stability))⁻¹ := by
    rw [hlr, hct]
    simp only [getRetrievability, if_neg hS.ne']
  refine ⟨?_, hr, rfl, ?_, by norm_num⟩
  · simp only [getMemoryViewCore, hn, if_neg hne, hrow]
    split_ifs with h
    · simp [h]
    · simp [h]
  · have d : Int.fdiv (200 * 86400 - 0) 86400 = 200 := by decide
    simp only [getRetrievability, d]
    norm_num

/-- Witness for C3 on the concrete 200-days-stale agent. -/
theorem claim_C3_witness :
    (getMemoryViewCore c3st "ubi" = .forgotten "ubi" ↔
      getRetrievability c3st.currentTime
        (NodeRec.stability ⟨"alice", "ubi", 5, 5, some 0, 1, 1, some 0, none, none⟩)
        (NodeRec.lastReview ⟨"alice", "ubi", 5, 5, some 0, 1, 1, some 0, none, none⟩)
        < 0.2) ∧
    getRetrievability c3st.currentTime
        (NodeRec.stability ⟨"alice", "ubi", 5, 5, some 0, 1, 1, some 0, none, none⟩)
        (NodeRec.lastReview ⟨"alice", "ubi", 5, 5, some 0, 1, 1, some 0, none, none⟩) =
      (1 + ((max (Int.fdiv (200 * 86400 - 0) 86400) 0 : ℤ) : ℝ) /
        (9 * NodeRec.stability ⟨"alice", "ubi", 5, 5, some 0, 1, 1, some 0, none, none⟩))⁻¹ ∧
    renderMarker (.forgotten "ubi") =
      some ("(I have forgotten the details about " ++ "ubi" ++ ")") ∧
    getRetrievability (.calendar (200 * 86400)) 5 (some 0) = 9 / 49 ∧
    ((9 : ℝ) / 49) < 0.2 :=
  claim_C3 c3st "ubi" "ubi" ⟨"alice", "ubi", 5, 5, some 0, 1, 1, some 0, none, none⟩
    (200 * 86400) 0 rfl (by decide) (by decide) rfl rfl (by norm_num)

/-- C4 counterexample: the world-knowledge query only excludes the literal
source `"I"`, so an edge whose source is the owner's own name (and whose
target matches the topic) is returned, contradicting the claim that the
source is neither `"I"` nor the owner. -/
theorem claim_C4_counterexample :
    ¬ (∀ e ∈ getWorldKnowledge c4db "alice" "ubi" 8,
        e.source ≠ "I" ∧ e.source ≠ "alice" ∧
        (likeMatch "ubi" e.source = true ∨ likeMatch "ubi" e.target = true)) := by
  intro h
  have hm : (⟨"alice", "alice", "ubi", "likes", 0, none, none, none⟩ : Edge) ∈
      getWorldKnowledge c4db "alice" "ubi" 8 := by decide
  exact (h _ hm).2.1 rfl

/-- C4 (amended): the world-knowledge rows used by the context assembly are
at most 8 edges whose source is not the literal `"I"` and whose source or
target matches the topic substring (the query in fact matches the target). -/
theorem claim_C4 (db : KnowledgeDB) (ownerId topic : String) :
    (getWorldKnowledge db ownerId topic 8).length ≤ 8 ∧
    ∀ e ∈ getWorldKnowledge db ownerId topic 8,
      e.source ≠ "I" ∧
      (likeMatch topic e.source = true ∨ likeMatch topic e.target = true) := by
  constructor
  · exact List.length_take_le 8 _
  · intro e he
    have he2 := List.mem_of_mem_take he
    have hcond := List.of_mem_filter he2
    simp only [Bool.and_eq_true, bne_iff_ne, ne_eq, beq_iff_eq] at hcond
    exact ⟨hcond.1.2, Or.inr hcond.2⟩

/-- C6: with non-empty identifiers, `add_relation` fails with a
`ValidationError` exactly when the supplied sentiment lies outside `[-1, 1]`,
in which case the store is untouched; a missing sentiment defaults to 0.0 and
the call succeeds. -/
theorem claim_C6 (db : KnowledgeDB) (ownerId source relation target : String)
    (ho : ownerId ≠ "") (hs : source ≠ "") (hr : relation ≠ "") (ht : target ≠ "")
    (s : ℚ) (ts : SimulationTime) :
    ((∃ err, addRelation db ownerId source relation target (some s) ts = .error err)
      ↔ (s < -1 ∨ 1 < s)) ∧
    ((s < -1 ∨ 1 < s) →
      addRelationRun db ownerId source relation target (some s) ts = db) ∧
    (∃ db2, addRelation db ownerId source relation target none ts = .ok db2) := by
  have hids : ¬ (ownerId = "" ∨ source = "" ∨ relation = "" ∨ target = "") := by
    simp [ho, hs, hr, ht]
  refine ⟨?_, ?_, ?_⟩
  · by_cases hrange : -1 ≤ s ∧ s ≤ 1
    · simp only [addRelation, if_neg hids, Option.getD_some, if_pos hrange]
      constructor
      · rintro ⟨err, heq⟩
        cases heq
      · rintro (h1 | h2)
        · exact absurd hrange.1 (not_le.mpr h1)
        · exact absurd hrange.2 (not_le.mpr h2)
    · simp only [addRelation, if_neg hids, Option.getD_some, if_neg hrange]
      constructor
      · intro _
        by_contra hc
        push_neg at hc
        exact hrange ⟨hc.1, hc.2⟩
      · exact fun _ => ⟨⟨"sentiment must be between -1.0 and 1.0"⟩, rfl⟩
  · intro hout
    have hrange : ¬ (-1 ≤ s ∧ s ≤ 1) := by
      rintro ⟨hlo, hhi⟩
      rcases hout with h1 | h2
      · exact absurd hlo (not_le.mpr h1)
      · exact absurd hhi (not_le.mpr h2)
    simp only [addRelationRun, addRelation, if_neg hids, Option.getD_some,
      if_neg hrange]
  · simp only [addRelation, if_neg hids, Option.getD_none,
      if_pos (by norm_num : (-1 : ℚ) ≤ 0 ∧ (0 : ℚ) ≤ 1)]
    exact ⟨_, rfl⟩

/-- Witness for C6 on an empty store with the out-of-range sentiment 1.5. -/
theorem claim_C6_witness :
    ((∃ err, addRelation ⟨[], []⟩ "alice" "ubi" "improves" "economy"
        (some (3 / 2)) (.calendar 0) = .error err) ↔
      ((3 / 2 : ℚ) < -1 ∨ 1 < (3 / 2 : ℚ))) ∧
    (((3 / 2 : ℚ) < -1 ∨ 1 < (3 / 2 : ℚ)) →
      addRelationRun ⟨[], []⟩ "alice" "ubi" "improves" "economy"
        (some (3 / 2)) (.calendar 0) = ⟨[], []⟩) ∧
    (∃ db2, addRelation ⟨[], []⟩ "alice" "ubi" "improves" "economy"
        none (.calendar 0) = .ok db2) :=
  claim_C6 ⟨[], []⟩ "alice" "ubi" "improves" "economy" (by decide) (by decide)
    (by decide) (by decide) (3 / 2) (.calendar 0)

/-- C7: a triplet whose normalized components fail the gatekeeper makes
`learn_triplet` return normally with the agent state untouched (no node, no
edge); the two cited garbage triples are rejected while
`("climate", "causes", "drought")` is admitted and its edge persisted. -/
theorem claim_C7 (st : AgentState) (src rel tgt : String) (r : Option ℕ)
    (s : Option ℚ)
    (hinv : isValidTriple (normalize st.name src) (normalize st.name rel)
      (normalize st.name tgt) = false) :
    learnTriplet st src rel tgt r s = .ok st ∧
    isValidTriple (normalize "alice" "it") (normalize "alice" "is")
      (normalize "alice" "the") = false ∧
    isValidTriple (normalize "alice" "a") (normalize "alice" "noun")
      (normalize "alice" "text") = false ∧
    isValidTriple (normalize "alice" "climate") (normalize "alice" "causes")
      (normalize "alice" "drought") = true ∧
    ∃ st2, learnTriplet (initAgent "alice" (.calendar 0)) "climate" "causes"
        "drought" none (some 0) = .ok st2 ∧
      st2.db.edges.any (fun e => e.source == "climate" && e.relation == "causes"
        && e.target == "drought") = true := by
  refine ⟨?_, by decide, by decide, by decide, ?_⟩
  · simp [learnTriplet, hinv]
  · exact ⟨_, rfl, by decide⟩

/-- Witness for C7: the stopword triple `("it", "is", "the")` is dropped
silently by a fresh agent. -/
theorem claim_C7_witness :
    learnTriplet (initAgent "alice" (.calendar 0)) "it" "is" "the" none none =
      .ok (initAgent "alice" (.calendar 0)) ∧
    isValidTriple (normalize "alice" "it") (normalize "alice" "is")
      (normalize "alice" "the") = false ∧
    isValidTriple (normalize "alice" "a") (normalize "alice" "noun")
      (normalize "alice" "text") = false ∧
    isValidTriple (normalize "alice" "climate") (normalize "alice" "causes")
      (normalize "alice" "drought") = true ∧
    ∃ st2, learnTriplet (initAgent "alice" (.calendar 0)) "climate" "causes"
        "drought" none (some 0) = .ok st2 ∧
      st2.db.edges.any (fun e => e.source == "climate" && e.relation == "causes"
        && e.target == "drought") = true :=
  claim_C7 (initAgent "alice" (.calendar 0)) "it" "is" "the" none none (by decide)

/-- C9: in pure round mode the scheduler stores no last review, every such
state reads back with retrievability 0.0, and `get_memory_view` therefore
returns the forgotten marker for any topic with a stored node, regardless of
its stability. -/
theorem claim_C9 :
    (∀ (cur : NodeState) (rating d h : ℕ),
      (calculateNext cur rating (.round d h)).lastReview = none) ∧
    (∀ (S : ℝ) (d h : ℕ), getRetrievability (.round d h) S none = 0) ∧
    (∀ (st : AgentState) (topic nTopic : String) (row : NodeRec),
      normalize st.name topic = some nTopic → nTopic ≠ "" →
      findNode st.db st.name nTopic = some row → row.lastReview = none →
      getMemoryViewCore st topic = .forgotten topic) := by
  refine ⟨?_, ?_, ?_⟩
  · intro cur rating d h
    simp only [calculateNext, SimulationTime.toDatetime]
    split_ifs <;> simp
  · intro S d h
    rfl
  · intro st topic nTopic row hn hne hrow hlr
    have h0 : getRetrievability st.currentTime row.stability row.lastReview = 0 := by
      rw [hlr]
      rfl
    simp only [getMemoryViewCore, hn, if_neg hne, hrow, h0]
    rw [if_pos (by norm_num : (0 : ℝ) < 0.2)]

/-- Helper: `find?` after an in-place update of the rows matching the key
predicate returns the updated image of the original hit. -/
theorem find?_map_upd {α : Type} (pk : α → Bool) (g : α → α)
    (hg : ∀ x, pk x = true → pk (g x) = true) (l : List α) :
    (l.map (fun x => if pk x then g x else x)).find? pk = (l.find? pk).map g := by
  induction l with
  | nil => rfl
  | cons a l ih =>
    by_cases h : pk a = true
    · rw [List.map_cons, if_pos h, List.find?_cons_of_pos _ (hg a h),
        List.find?_cons_of_pos _ h, Option.map_some']
    · rw [List.map_cons, if_neg h, List.find?_cons_of_neg _ h,
        List.find?_cons_of_neg _ h, ih]

/-- Helper: an in-place update of the rows matching one key is invisible to a
`find?` under a disjoint key. -/
theorem find?_map_upd_other {α : Type} (pk pk2 : α → Bool) (g : α → α)
    (hdisj : ∀ x, pk x = true → ¬ pk2 x = true)
    (hpres : ∀ x, pk2 (g x) = pk2 x) (l : List α) :
    (l.map (fun x => if pk x then g x else x)).find? pk2 = l.find? pk2 := by
  induction l with
  | nil => rfl
  | cons a l ih =>
    by_cases h : pk a = true
    · rw [List.map_cons, if_pos h,
        List.find?_cons_of_neg _ (by rw [hpres]; exact hdisj a h),
        List.find?_cons_of_neg _ (hdisj a h), ih]
    · by_cases h2 : pk2 a = true
      · rw [List.map_cons, if_neg h, List.find?_cons_of_pos _ h2,
          List.find?_cons_of_pos _ h2]
      · rw [List.map_cons, if_neg h, List.find?_cons_of_neg _ h2,
          List.find?_cons_of_neg _ h2, ih]

/-- Helper: after upserting a node state under a key, looking the key up
reads back exactly that state. -/
theorem findNode_upsert_some (db : KnowledgeDB) (o n : String) (fs : NodeState)
    (t : SimulationTime) :
    (findNode (upsertNodeAct db o n (some fs) t) o n).map nodeStateOf = some fs := by
  simp only [upsertNodeAct]
  cases hf : findNode db o n with
  | some x =>
    simp only [findNode] at hf ⊢
    rw [find?_map_upd (fun (y : NodeRec) => y.ownerId == o && y.id == n)
      (fun (y : NodeRec) => { y with
        stability := fs.stability
        difficulty := fs.difficulty
        lastReview := fs.lastReview
        reps := fs.reps
        state := fs.state
        simDay := (t.toRound).map Prod.fst
        simHour := (t.toRound).map Prod.snd })
      (fun x h => h), hf]
    rfl
  | none =>
    simp only [findNode] at hf ⊢
    rw [List.find?_append, hf]
    simp [nodeStateOf]

/-- Helper: an upsert under one node id leaves lookups of any other id
unchanged. -/
theorem findNode_upsert_other (db : KnowledgeDB) (o n n2 : String)
    (fs : Option NodeState) (t : SimulationTime) (hne : n2 ≠ n) :
    findNode (upsertNodeAct db o n fs t) o n2 = findNode db o n2 := by
  simp only [upsertNodeAct]
  cases hf : findNode db o n with
  | some x =>
    cases fs with
    | none => rfl
    | some fs =>
      simp only [findNode]
      apply find?_map_upd_other
      · intro y hy hy2
        simp only [Bool.and_eq_true, beq_iff_eq] at hy hy2
        exact hne (hy2.2.symm.trans hy.2)
      · intro y
        rfl
  | none =>
    simp only [findNode, List.find?_append]
    have hlast : ∀ (nr : NodeRec), nr.id = n →
        List.find? (fun x => x.ownerId == o && x.id == n2) [nr] = none := by
      intro nr hid
      have hb : (n == n2) = false := beq_eq_false_iff_ne.mpr (fun h => hne h.symm)
      simp [List.find?, hid, hb]
    cases fs with
    | none => rw [hlast _ rfl, Option.or_none]
    | some fs => rw [hlast _ rfl, Option.or_none]

/-- Helper: the key just upserted with a state is present. -/
theorem findNode_upsert_isSome (db : KnowledgeDB) (o n : String) (fs : NodeState)
    (t : SimulationTime) :
    (findNode (upsertNodeAct db o n (some fs) t) o n).isSome = true := by
  have h := congrArg Option.isSome (findNode_upsert_some db o n fs t)
  simpa using h

/-- Helper: `upsert_node` without an FSRS state leaves an existing row
untouched. -/
theorem upsertAct_none_found (db : KnowledgeDB) (o n : String)
    (t : SimulationTime) (h : (findNode db o n).isSome = true) :
    upsertNodeAct db o n none t = db := by
  simp only [upsertNodeAct]
  cases hf : findNode db o n with
  | some x => rfl
  | none => rw [hf] at h; cases h

/-- Helper: the gatekeeper only admits non-empty components. -/
theorem validTriple_nonempty (a b c : String)
    (h : isValidTriple (some a) (some b) (some c) = true) :
    a ≠ "" ∧ b ≠ "" ∧ c ≠ "" := by
  refine ⟨?_, ?_, ?_⟩ <;> intro he <;> subst he <;> simp [isValidTriple] at h

/-- Helper: `update_memory` under hypotheses making the normalization
resolve: the scheduler output is upserted under the normalized name. -/
theorem updateMemory_eq (st : AgentState) (cname nm : String) (r : ℕ)
    (hn : normalize st.name cname = some nm) (hne : nm ≠ "") :
    updateMemory st cname r = { st with
      db := upsertNodeAct st.db st.name nm
        (some (calculateNext (readMemoryState st.db st.name nm) r st.currentTime))
        st.currentTime } := by
  simp only [updateMemory, hn, if_neg hne]

/-- C10: for an admissible triplet whose normalized source is not `"I"`, the
source concept's memory state is updated through the scheduler with the
fixed rating Good (3) regardless of the rating argument, while only the
target concept receives the caller-supplied rating. -/
theorem claim_C10 (st : AgentState) (src rel tgt : String) (r : ℕ) (s : ℚ)
    (nsrc nrel ntgt : String)
    (hname : st.name ≠ "")
    (hsrc : normalize st.name src = some nsrc)
    (hrel : normalize st.name rel = some nrel)
    (htgt : normalize st.name tgt = some ntgt)
    (hsrc2 : normalize st.name nsrc = some nsrc)
    (htgt2 : normalize st.name ntgt = some ntgt)
    (hvalid : isValidTriple (some nsrc) (some nrel) (some ntgt) = true)
    (hsI : nsrc ≠ "I") (hst : nsrc ≠ ntgt)
    (hs1 : -1 ≤ s) (hs2 : s ≤ 1) :
    ∃ st2, learnTriplet st src rel tgt (some r) (some s) = .ok st2 ∧
      (findNode st2.db st.name nsrc).map nodeStateOf =
        some (calculateNext (readMemoryState st.db st.name nsrc) 3 st.currentTime) ∧
      (findNode st2.db st.name ntgt).map nodeStateOf =
        some (calculateNext (readMemoryState st.db st.name ntgt) r st.currentTime) := by
  obtain ⟨hsne, hrne, htne⟩ := validTriple_nonempty _ _ _ hvalid
  set NT := calculateNext (readMemoryState st.db st.name ntgt) r st.currentTime
    with hNTdef
  set dbT := upsertNodeAct st.db st.name ntgt (some NT) st.currentTime with hdbTdef
  have hT : updateMemory st ntgt r = { st with db := dbT } :=
    updateMemory_eq st ntgt ntgt r htgt2 htne
  have hreadS : readMemoryState dbT st.name nsrc =
      readMemoryState st.db st.name nsrc := by
    unfold readMemoryState
    rw [hdbTdef, findNode_upsert_other _ _ _ _ _ _ hst]
  set NS := calculateNext (readMemoryState st.db st.name nsrc) 3 st.currentTime
    with hNSdef
  set dbS := upsertNodeAct dbT st.name nsrc (some NS) st.currentTime with hdbSdef
  have hS : updateMemory { st with db := dbT } nsrc 3 = { st with db := dbS } := by
    rw [updateMemory_eq ({ st with db := dbT }) nsrc nsrc 3 hsrc2 hsne]
    show ({ st with
        db := upsertNodeAct dbT st.name nsrc
          (some (calculateNext (readMemoryState dbT st.name nsrc) 3
            st.currentTime))
          st.currentTime } : AgentState) =
      { st with db := dbS }
    rw [hreadS]
  have eq1 : (findNode dbS st.name nsrc).map nodeStateOf = some NS :=
    findNode_upsert_some dbT st.name nsrc NS st.currentTime
  have eq2 : (findNode dbS st.name ntgt).map nodeStateOf = some NT := by
    rw [hdbSdef, findNode_upsert_other _ _ _ _ _ _ (Ne.symm hst)]
    exact findNode_upsert_some st.db st.name ntgt NT st.currentTime
  have hids : ¬ (st.name = "" ∨ nsrc = "" ∨ nrel = "" ∨ ntgt = "") := by
    simp [hname, hsne, hrne, htne]
  have hup1 : upsertNodeAct dbS st.name nsrc none st.currentTime = dbS :=
    upsertAct_none_found _ _ _ _
      (findNode_upsert_isSome dbT st.name nsrc NS st.currentTime)
  have hup2 : upsertNodeAct dbS st.name ntgt none st.currentTime = dbS := by
    apply upsertAct_none_found
    have h2 := congrArg Option.isSome eq2
    simpa using h2
  have hok : ∃ E, addRelation dbS st.name nsrc nrel ntgt (some s) st.currentTime =
      Except.ok ⟨dbS.nodes, E⟩ := by
    simp only [addRelation, if_neg hids, Option.getD_some,
      if_pos (⟨hs1, hs2⟩ : (-1 : ℚ) ≤ s ∧ s ≤ 1), hup1, hup2]
    exact ⟨_, rfl⟩
  obtain ⟨E, hE⟩ := hok
  have hcond : (some nsrc ≠ some "I") := by simpa using hsI
  refine ⟨{ st with db := ⟨dbS.nodes, E⟩ }, ?_, eq1, eq2⟩
  simp only [learnTriplet, hsrc, hrel, htgt, Option.getD_some, hvalid, if_true]
  rw [hT, if_pos hcond, hS,
    show ({ st with db := dbS } : AgentState).db = dbS from rfl, hE]

/-- Witness for C10: a fresh agent learns `("climate", "causes", "drought")`
with rating Easy (4); the source is scheduled at Good (3), the target at 4. -/
theorem claim_C10_witness :
    ∃ st2, learnTriplet (initAgent "alice" (.calendar 0)) "climate" "causes"
        "drought" (some 4) (some 0) = .ok st2 ∧
      (findNode st2.db (initAgent "alice" (.calendar 0)).name "climate").map
          nodeStateOf =
        some (calculateNext (readMemoryState (initAgent "alice" (.calendar 0)).db
          (initAgent "alice" (.calendar 0)).name "climate") 3
          (initAgent "alice" (.calendar 0)).currentTime) ∧
      (findNode st2.db (initAgent "alice" (.calendar 0)).name "drought").map
          nodeStateOf =
        some (calculateNext (readMemoryState (initAgent "alice" (.calendar 0)).db
          (initAgent "alice" (.calendar 0)).name "drought") 4
          (initAgent "alice" (.calendar 0)).currentTime) :=
  claim_C10 (initAgent "alice" (.calendar 0)) "climate" "causes" "drought" 4 0
    "climate" "causes" "drought" (by decide) (by decide) (by decide) (by decide)
    (by decide) (by decide) (by decide) (by decide) (by decide)
    (by norm_num) (by norm_num)

/-- Helper: the keys of a freshly stamped run are the inserted keys. -/
theorem stamped_keys (v : String → String) :
    ∀ (c : ℕ) (ks : List String),
      (stamped v c ks).map (fun e => e.key) = ks
  | _, [] => rfl
  | c, k :: ks => by rw [stamped, List.map_cons, stamped_keys v (c + 1) ks]

/-- Helper: a stamped run has one entry per key. -/
theorem stamped_length (v : String → String) :
    ∀ (c : ℕ) (ks : List String), (stamped v c ks).length = ks.length
  | _, [] => rfl
  | c, k :: ks => by rw [stamped, List.length_cons, stamped_length v (c + 1) ks,
      List.length_cons]

/-- Helper: every entry of a stamped run carries a counter above the start. -/
theorem stamped_count_gt (v : String → String) :
    ∀ (c : ℕ) (ks : List String), ∀ x ∈ stamped v c ks, c < x.accessCount
  | _, [], x, hx => absurd hx (List.not_mem_nil x)
  | c, k :: ks, x, hx => by
    rw [stamped, List.mem_cons] at hx
    rcases hx with h | h
    · subst h
      exact Nat.lt_succ_self c
    · exact Nat.lt_of_succ_lt (stamped_count_gt v (c + 1) ks x h)

/-- Helper: a key of a stamped run is one of the inserted keys. -/
theorem stamped_key_mem (v : String → String) (c : ℕ) (ks : List String)
    (x : CacheEntry) (hx : x ∈ stamped v c ks) : x.key ∈ ks := by
  rw [← stamped_keys v c ks]
  exact List.mem_map_of_mem _ hx

/-- Helper: Python's first-minimum fold keeps the seed when every later
entry has a strictly larger counter. -/
theorem foldl_min_first :
    ∀ (es : List CacheEntry) (e : CacheEntry),
      (∀ x ∈ es, e.accessCount < x.accessCount) →
      es.foldl (fun b x => if x.accessCount < b.accessCount then x else b) e = e
  | [], e, _ => rfl
  | x :: es, e, h => by
    rw [List.foldl_cons, if_neg (Nat.not_lt.mpr (h x (List.mem_cons_self x es)).le)]
    exact foldl_min_first es e (fun y hy => h y (List.mem_cons_of_mem x hy))

/-- Helper: on counters stamped in insertion order, the LRU choice is the
first-inserted key. -/
theorem lruKey_stamped (v : String → String) (c : ℕ) (k : String)
    (ks : List String) :
    lruKey (stamped v c (k :: ks)) = some k := by
  rw [stamped, lruKey]
  rw [foldl_min_first _ _ (fun x hx => stamped_count_gt v (c + 1) ks x hx)]

/-- Helper: `put_context` of a fresh key into a cache with room appends the
entry stamped with the incremented counter, evicting nothing. -/
theorem putContextKey_fresh (c : AgentCache) (k val : String)
    (hen : c.enabled = true)
    (hfresh : ∀ e ∈ c.contextCache, e.key ≠ k)
    (hroom : c.contextCache.length < c.maxSize) :
    putContextKey c k val = { c with
      contextCache := c.contextCache ++ [⟨k, val, c.accessCounter + 1⟩]
      accessCounter := c.accessCounter + 1 } := by
  have hall : (c.contextCache.all fun e => e.key != k) = true :=
    List.all_eq_true.mpr (fun e he => bne_iff_ne.mpr (hfresh e he))
  have hg : (decide (c.maxSize ≤ c.contextCache.length)) = false :=
    decide_eq_false (not_le.mpr hroom)
  have hany : (c.contextCache.any fun e => e.key == k) = false := by
    rw [List.any_eq_false]
    intro e he
    simpa using hfresh e he
  simp only [putContextKey, hen, hall, hg, Bool.and_false, Bool.false_eq_true,
    if_false, hany, if_true]

/-- Helper: folding `put_context` over distinct fresh keys while the cache
has room appends one stamped entry per key and bumps the counter once per
key. -/
theorem putContext_fill (v : String → String) (ks : List String) :
    ∀ (c : AgentCache), c.enabled = true → ks.Nodup →
    (∀ k ∈ ks, ∀ e ∈ c.contextCache, e.key ≠ k) →
    c.contextCache.length + ks.length ≤ c.maxSize →
    ks.foldl (fun acc k => putContextKey acc k (v k)) c =
      { c with
        contextCache := c.contextCache ++ stamped v c.accessCounter ks
        accessCounter := c.accessCounter + ks.length } := by
  induction ks with
  | nil =>
    intro c hen hnd hfresh hlen
    simp [stamped]
  | cons k ks ih =>
    intro c hen hnd hfresh hlen
    rw [List.foldl_cons,
      putContextKey_fresh c k (v k) hen
        (fun e he => hfresh k (List.mem_cons_self k ks) e he)
        (by simp only [List.length_cons] at hlen; omega)]
    rw [ih { c with
        contextCache := c.contextCache ++ [⟨k, v k, c.accessCounter + 1⟩]
        accessCounter := c.accessCounter + 1 } hen hnd.of_cons ?_ ?_]
    · simp only [List.length_cons, List.length_append, List.length_singleton]
      rw [List.append_assoc, List.singleton_append, stamped]
      congr 1
      omega
    · intro k2 hk2 e he
      rcases List.mem_append.mp he with h | h
      · exact hfresh k2 (List.mem_cons_of_mem k hk2) e h
      · rw [List.mem_singleton] at h
        subst h
        intro hkk
        have hkeq : k = k2 := hkk
        subst hkeq
        exact (List.nodup_cons.mp hnd).1 hk2
    · simp at hlen ⊢
      omega

/-- Helper: the single eviction triggered by the `(N+1)`-st distinct insert
removes exactly the first-inserted (lowest-counter) entry. -/
theorem putContextKey_evict (N : ℕ) (v : String → String) (k0 klast : String)
    (mid : List String) (hlen : (k0 :: mid).length = N)
    (hk0last : k0 ≠ klast) (hlastmid : klast ∉ mid) :
    putContextKey ⟨N, true, stamped v 0 (k0 :: mid), [], N⟩ klast (v klast) =
      ⟨N, true, stamped v 1 mid ++ [⟨klast, v klast, N + 1⟩], [], N + 1⟩ := by
  have hkeys : ∀ e ∈ stamped v 0 (k0 :: mid), e.key ≠ klast := by
    intro e he hk
    have := stamped_key_mem v 0 (k0 :: mid) e he
    rw [hk] at this
    rcases List.mem_cons.mp this with h | h
    · exact hk0last h.symm
    · exact hlastmid h
  have hall : ((stamped v 0 (k0 :: mid)).all fun e => e.key != klast) = true :=
    List.all_eq_true.mpr (fun e he => bne_iff_ne.mpr (hkeys e he))
  have hlenst : (stamped v 0 (k0 :: mid)).length = N := by
    rw [stamped_length]
    exact hlen
  have hev : evictLru ⟨N, true, stamped v 0 (k0 :: mid), [], N⟩ =
      ⟨N, true, stamped v 1 mid, [], N⟩ := by
    simp only [evictLru]
    rw [if_pos (le_of_eq hlenst.symm), lruKey_stamped]
    show (⟨N, true, (stamped v 0 (k0 :: mid)).eraseP (fun e => e.key == k0),
      [], N⟩ : AgentCache) = _
    rw [stamped, List.eraseP_cons_of_pos (by simp)]
  have hany : ((stamped v 1 mid).any fun e => e.key == klast) = false := by
    rw [List.any_eq_false]
    intro e he hk
    exact hlastmid (by
      have := stamped_key_mem v 1 mid e he
      rwa [beq_iff_eq.mp hk] at this)
  simp [putContextKey, hall, hlenst, hev, hany]

/-- C8: starting from an empty enabled cache with `max_size = N ≥ 1`,
inserting `N + 1` distinct keys evicts exactly the first-inserted
(lowest-access-counter) entry: the map keeps exactly the later `N` keys in
order, its size stays `N`, and a get on the evicted key returns `None`. -/
theorem claim_C8 (N : ℕ) (hN : 1 ≤ N) (k0 klast : String) (mid : List String)
    (hnd : ((k0 :: mid) ++ [klast]).Nodup) (hlen : (k0 :: mid).length = N)
    (v : String → String) :
    (((k0 :: mid) ++ [klast]).foldl (fun acc k => putContextKey acc k (v k))
        (emptyCache N)).contextCache.length = N ∧
    (getContextKey (((k0 :: mid) ++ [klast]).foldl
        (fun acc k => putContextKey acc k (v k)) (emptyCache N)) k0).fst = none ∧
    (((k0 :: mid) ++ [klast]).foldl (fun acc k => putContextKey acc k (v k))
        (emptyCache N)).contextCache.map (fun e => e.key) = mid ++ [klast] := by
  have hndf : (k0 :: mid).Nodup := hnd.of_append_left
  have hdisj : (k0 :: mid).Disjoint [klast] := (List.nodup_append.mp hnd).2.2
  have hk0last : k0 ≠ klast := fun h =>
    hdisj (List.mem_cons_self _ _) (by rw [h]; exact List.mem_singleton_self _)
  have hk0mid : k0 ∉ mid := (List.nodup_cons.mp hndf).1
  have hlastmid : klast ∉ mid := fun h =>
    hdisj (List.mem_cons_of_mem _ h) (List.mem_singleton_self _)
  have hfill := putContext_fill v (k0 :: mid) (emptyCache N) rfl hndf
    (fun k _ e he => absurd he (List.not_mem_nil e))
    (by simp [emptyCache, hlen])
  have hfold : ((k0 :: mid) ++ [klast]).foldl
      (fun acc k => putContextKey acc k (v k)) (emptyCache N) =
      ⟨N, true, stamped v 1 mid ++ [⟨klast, v klast, N + 1⟩], [], N + 1⟩ := by
    rw [List.foldl_append, hfill, List.foldl_cons, List.foldl_nil]
    have hC : ({ emptyCache N with
        contextCache := (emptyCache N).contextCache ++ stamped v
          (emptyCache N).accessCounter (k0 :: mid)
        accessCounter := (emptyCache N).accessCounter + (k0 :: mid).length } :
        AgentCache) = ⟨N, true, stamped v 0 (k0 :: mid), [], N⟩ := by
      simp [emptyCache, hlen]
    rw [hC, putContextKey_evict N v k0 klast mid hlen hk0last hlastmid]
  rw [hfold]
  have hmidlen : mid.length + 1 = N := by
    simpa using hlen
  refine ⟨?_, ?_, ?_⟩
  · simp only [List.length_append, stamped_length, List.length_singleton]
    omega
  · simp only [getContextKey]
    rw [if_pos trivial]
    have hfind : List.find? (fun (e : CacheEntry) => e.key == k0)
        (stamped v 1 mid ++ [⟨klast, v klast, N + 1⟩]) = none := by
      rw [List.find?_eq_none]
      intro x hx hk
      rcases List.mem_append.mp hx with h | h
      · exact hk0mid (by
          have := stamped_key_mem v 1 mid x h
          rwa [beq_iff_eq.mp hk] at this)
      · rw [List.mem_singleton] at h
        subst h
        exact hk0last (beq_iff_eq.mp hk).symm
    rw [hfind]
  · rw [List.map_append, stamped_keys]
    rfl

/-- Witness for C8: three distinct keys into a cache of bound 2 evict the
first key. -/
theorem claim_C8_witness :
    ((("a" :: ["b"]) ++ ["c"]).foldl
        (fun acc k => putContextKey acc k k) (emptyCache 2)).contextCache.length
      = 2 ∧
    (getContextKey ((("a" :: ["b"]) ++ ["c"]).foldl
        (fun acc k => putContextKey acc k k) (emptyCache 2)) "a").fst = none ∧
    ((("a" :: ["b"]) ++ ["c"]).foldl
        (fun acc k => putContextKey acc k k) (emptyCache 2)).contextCache.map
        (fun e => e.key) = ["b"] ++ ["c"] :=
  claim_C8 2 (by decide) "a" "c" ["b"] (by decide) (by decide) (fun k => k)

end GhostKG

